import Mathlib

/-!
Verification development for the media-slicer repository.

The core under verification is the `handleProcess` orchestration in
`src/components/MediaSlicer.jsx`: it sanitizes the selected file's name,
writes the bytes into the FFmpeg engine's virtual filesystem, issues one
segmentation command, collects the produced output entries, packs them into
a ZIP archive with renumbered names, and cleans the engine's virtual
filesystem up on both the success and the failure path.

The embedding below is shallow: the engine is a parameter (`EngineModel`)
describing what `exec` does (throws or succeeds, which output names it
writes) and which `deleteFile` calls fail; a run is then a pure function
from that model to a `RunResult` recording the final virtual filesystem,
the archive contents, the emitted progress values (as rationals), the
error, the status line and the trace of engine operations.
-/

namespace MediaSlicer

/-! ### Character / string helpers -/

/-- A character from the safe set `[A-Za-z0-9._-]`. -/
def safeChar (c : Char) : Bool :=
  ('A' ≤ c && c ≤ 'Z') || ('a' ≤ c && c ≤ 'z') || ('0' ≤ c && c ≤ '9') ||
    c = '.' || c = '_' || c = '-'

/-- Modelled from the spec: `sanitizeFilename` of `src/utils/fileUtils.js` is
not under `src/`; §4.1/§3 of the spec describe it as: replace whitespace with
`_`, strip every character outside the safe set `[A-Za-z0-9._-]`, and fall
back to a fixed base name when the result is empty. -/
def sanitizeChars (cs : List Char) : List Char :=
  (cs.map (fun c => if c.isWhitespace then '_' else c)).filter safeChar

/-- Modelled from the spec: the filename sanitizer (see `sanitizeChars`). -/
def sanitizeFilename (s : String) : String :=
  let r := sanitizeChars s.toList
  if r.isEmpty then "file" else String.mk r

/-- A character other than the dot, the delimiter of the final extension. -/
def notDot (c : Char) : Bool :=
  c ≠ '.'

/-- Modelled from the spec: `getFileExtension` of `src/utils/fileUtils.js` is
not under `src/`; §4.2 describes it as the substring after the final `.`,
empty when there is no dot. -/
def getFileExtension (s : String) : String :=
  let cs := s.toList
  if '.' ∈ cs then String.mk (cs.reverse.takeWhile notDot).reverse else ""

/-- The final dot-delimited extension of a name, `none` when no dot occurs;
used to state extension-preservation properties of the sanitizer. -/
def finalExtension (s : String) : Option String :=
  if '.' ∈ s.toList then
    some (String.mk (s.toList.reverse.takeWhile notDot).reverse)
  else none

/-- The characters strictly before the final `.` of a name
(`[]` when no dot occurs), as in `s.substring(0, s.lastIndexOf('.'))`. -/
def beforeLastDot (s : String) : String :=
  String.mk ((s.toList.reverse.dropWhile notDot).drop 1).reverse

/-- `sanitized.substring(0, sanitized.lastIndexOf('.')) || sanitized`:
the part before the final dot, falling back to the whole name when that
part is empty (no dot, or the name starts with its only dot). -/
def jsBaseName (s : String) : String :=
  if beforeLastDot s = "" then s else beforeLastDot s

/-- `String(n).padStart(2, '0')`: two-digit zero padding of the ordinal. -/
def pad2 (n : Nat) : String :=
  let s := toString n
  if s.length < 2 then "0" ++ s else s

/-- `pat` is a prefix of `cs` (character by character). -/
def charPrefix : List Char → List Char → Bool
  | [], _ => true
  | _ :: _, [] => false
  | a :: as, b :: bs => a = b && charPrefix as bs

/-- `s.startsWith(pat)` on the character lists. -/
def strStartsWith (s pat : String) : Bool :=
  charPrefix pat.toList s.toList

/-- `s.endsWith(pat)` on the character lists. -/
def strEndsWith (s pat : String) : Bool :=
  charPrefix pat.toList.reverse s.toList.reverse

/-- Lexicographic comparison of character lists, modelling
`a.name.localeCompare(b.name) <= 0` for the plain ASCII names involved. -/
def charListLe : List Char → List Char → Bool
  | [], _ => true
  | _ :: _, [] => false
  | a :: as, b :: bs => if a < b then true else if b < a then false else charListLe as bs

/-- Insert a string into a list sorted by `charListLe`. -/
def insertSorted (s : String) : List String → List String
  | [] => [s]
  | t :: ts => if charListLe s.toList t.toList then s :: t :: ts else t :: insertSorted s ts

/-- `files.sort((a, b) => a.name.localeCompare(b.name))`: sort the listing
by name (insertion sort; only membership and length matter to the claims). -/
def sortStrings (l : List String) : List String :=
  l.foldr insertSorted []

/-! ### The engine model -/

/-- An arbitrary JavaScript value thrown by the engine's `exec`: `null`,
`undefined`, a string, an `Error`-like object carrying a `message` field and
a `toString()` result, or a plain object with only a `toString()` result. -/
inductive JSValue
  | nullV
  | undef
  | str (s : String)
  | errObj (message : String) (ts : String)
  | plainObj (ts : String)
deriving DecidableEq

/-- `execErr?.message`: the `message` field when present, collapsed to `""`
when it is absent or the access yields `undefined` (both are falsy). -/
def jsOptMessage : JSValue → String
  | .errObj m _ => m
  | _ => ""

/-- `execErr?.toString()`: `undefined` (collapsed to `""`) for `null` and
`undefined` via optional chaining, otherwise the value's string form. -/
def jsOptToString : JSValue → String
  | .nullV => ""
  | .undef => ""
  | .str s => s
  | .errObj _ ts => ts
  | .plainObj ts => ts

/-- `String(execErr)`: `"null"` / `"undefined"` for the two unit values,
otherwise the value's string form. -/
def jsStringOf : JSValue → String
  | .nullV => "null"
  | .undef => "undefined"
  | .str s => s
  | .errObj _ ts => ts
  | .plainObj ts => ts

/-- `execErr?.message || execErr?.toString() || String(execErr) ||
'FFmpeg execution failed'`: the defensive derivation of a message from an
arbitrary thrown value (the first truthy, i.e. non-empty, alternative). -/
def jsErrorMessage (v : JSValue) : String :=
  if jsOptMessage v ≠ "" then jsOptMessage v
  else if jsOptToString v ≠ "" then jsOptToString v
  else if jsStringOf v ≠ "" then jsStringOf v
  else "FFmpeg execution failed"

/-- The behaviour of the FFmpeg engine during one run: whether `exec`
throws (and with which value), which output names it writes into the
virtual filesystem, what `readFile` returns, and which `deleteFile`
calls fail. -/
structure EngineModel where
  execResult : Option JSValue
  produced : List String
  readData : String → List Nat
  deleteFails : String → Bool

/-- The error that settles a run, one constructor per `throw` site /
validation `return` of `handleProcess`. -/
inductive RunError
  | validation (msg : String)
  | segFailed (msg : String)
  | noSegments
  | deleteFailed (name : String)
deriving DecidableEq

/-- The observable phase of a run once it has settled. -/
inductive Phase
  | Idle
  | Failed
  | Succeeded
deriving DecidableEq

/-- One operation issued against the engine. -/
inductive EngineOp
  | write (name : String)
  | exec (argv : List String)
  | listDir
  | read (name : String)
  | delete (name : String)
deriving DecidableEq

/-- The settled outcome of one invocation of `handleProcess`. -/
structure RunResult where
  finalVfs : List String
  archive : List (String × List Nat)
  progressTrace : List ℚ
  error : Option RunError
  status : String
  started : Bool
  engineOps : List EngineOp
  downloaded : Bool

/-- The phase a settled result displays: `Idle` when the run never started
(`isProcessing` was never set), `Failed` when an error is recorded,
`Succeeded` otherwise. -/
def RunResult.phase (r : RunResult) : Phase :=
  if r.started = false then Phase.Idle
  else if r.error.isSome then Phase.Failed
  else Phase.Succeeded

/-! ### The virtual filesystem -/

/-- `ffmpeg.writeFile`: a virtual filesystem is a duplicate-free list of
names; writing an existing name overwrites it in place, writing a new name
appends it. -/
def vfsWrite (vfs : List String) (name : String) : List String :=
  if name ∈ vfs then vfs else vfs ++ [name]

/-- The virtual filesystem after the input has been written and `exec` has
run: the sanitized input name plus every name the engine produced. -/
def runVfsAfterExec (eng : EngineModel) (initVfs : List String) (rawName : String) :
    List String :=
  eng.produced.foldl vfsWrite (vfsWrite initVfs (sanitizeFilename rawName))

/-- `const outputExt = ext || 'mp4'` where `ext = getFileExtension(sanitized)`. -/
def resolvedOutputExt (rawName : String) : String :=
  let ext := getFileExtension (sanitizeFilename rawName)
  if ext = "" then "mp4" else ext

/-- The collected output entries: the listing filtered by
`f.name.startsWith('out_') && f.name.endsWith('.' + outputExt)` and sorted
by name. -/
def runOutputFiles (eng : EngineModel) (initVfs : List String) (rawName : String) :
    List String :=
  sortStrings ((runVfsAfterExec eng initVfs rawName).filter
    (fun f => strStartsWith f "out_" && strEndsWith f ("." ++ resolvedOutputExt rawName)))

/-- The failure-path cleanup loop: list the root, and for every entry whose
name is the sanitized input or starts with `out_`, attempt a delete whose
own failure is suppressed (`.catch(() => {})` makes a failing delete a
no-op). -/
def failureCleanup (eng : EngineModel) (sanitized : String) (vfs : List String) :
    List String :=
  vfs.foldl
    (fun acc f =>
      if (f = sanitized || strStartsWith f "out_") && !eng.deleteFails f then acc.erase f
      else acc)
    vfs

/-- The success-path cleanup loop: delete each name in order, stopping at
(and throwing) the first failing delete. Returns the filesystem reached and
the name of the failing delete, if any. -/
def deleteSeq (eng : EngineModel) : List String → List String → List String × Option String
  | vfs, [] => (vfs, none)
  | vfs, f :: rest =>
    if eng.deleteFails f then (vfs, some f) else deleteSeq eng (vfs.erase f) rest

/-! ### The orchestrator -/

/-- The ZIP-building loop: entry `i` (0-based) of the sorted output list is
stored under `{baseName}_segment_{i+1 padded to 2 digits}.{outputExt}` with
the bytes read back from the engine. -/
def buildArchive (eng : EngineModel) (baseName outputExt : String) :
    Nat → List String → List (String × List Nat)
  | _, [] => []
  | i, name :: rest =>
    (baseName ++ "_segment_" ++ pad2 (i + 1) ++ "." ++ outputExt, eng.readData name) ::
      buildArchive eng baseName outputExt (i + 1) rest

/-- The progress values emitted by the ZIP-building loop:
`setProgress(70 + (i + 1) / outputFiles.length * 20)` after each entry. -/
def archiveTrace (total : Nat) : Nat → List String → List ℚ
  | _, [] => []
  | i, _ :: rest =>
    ((70 : ℚ) + (((i : ℚ) + 1) / (total : ℚ)) * 20) :: archiveTrace total (i + 1) rest

/-- The `catch (err)` handler of `handleProcess`: record the error, then
run the suppressed best-effort cleanup over a fresh listing. -/
def catchHandler (eng : EngineModel) (sanitized : String) (vfs : List String)
    (trace : List ℚ) (ops : List EngineOp) (archive : List (String × List Nat))
    (downloaded : Bool) (e : RunError) : RunResult :=
  { finalVfs := failureCleanup eng sanitized vfs
    archive := archive
    progressTrace := trace
    error := some e
    status := ""
    started := true
    engineOps := ops ++ [EngineOp.listDir] ++
      ((vfs.filter (fun f => f = sanitized || strStartsWith f "out_")).map EngineOp.delete)
    downloaded := downloaded }

/-- The argument vector of the single segmentation command. -/
def runArgv (rawName : String) (segLen : Int) : List String :=
  let sanitized := sanitizeFilename rawName
  let outputExt := resolvedOutputExt rawName
  ["-i", sanitized, "-f", "segment", "-segment_time", toString segLen,
    "-c", "copy", "-reset_timestamps", "1", "-segment_format",
    if outputExt = "mp3" || outputExt = "wav" then outputExt else "mp4",
    "out_%02d." ++ outputExt]

/-- The body of `handleProcess` after validation: write the input, run the
segmentation command, collect and sort the outputs, build the archive while
emitting progress, trigger the download, and clean up — jumping to
`catchHandler` whenever a step throws. -/
def runProcess (eng : EngineModel) (initVfs : List String) (rawName : String)
    (segLen : Int) : RunResult :=
  let sanitized := sanitizeFilename rawName
  let baseName := jsBaseName sanitized
  let outputExt := resolvedOutputExt rawName
  let ops0 := [EngineOp.write sanitized, EngineOp.exec (runArgv rawName segLen)]
  let vfs2 := runVfsAfterExec eng initVfs rawName
  match eng.execResult with
  | some v =>
    catchHandler eng sanitized vfs2 [0, 10] ops0 [] false
      (RunError.segFailed ("FFmpeg processing failed: " ++ jsErrorMessage v))
  | none =>
    let outputFiles := runOutputFiles eng initVfs rawName
    let ops1 := ops0 ++ [EngineOp.listDir]
    if outputFiles.length = 0 then
      catchHandler eng sanitized vfs2 [0, 10, 60] ops1 [] false RunError.noSegments
    else
      let n := outputFiles.length
      let archive := buildArchive eng baseName outputExt 0 outputFiles
      let trace1 := [0, 10, 60, 70] ++ archiveTrace n 0 outputFiles ++ [95]
      let ops2 := ops1 ++ outputFiles.map EngineOp.read
      let del := deleteSeq eng vfs2 (outputFiles ++ [sanitized])
      match del.2 with
      | some fname =>
        catchHandler eng sanitized del.1 trace1 ops2 archive true
          (RunError.deleteFailed fname)
      | none =>
        { finalVfs := del.1
          archive := archive
          progressTrace := trace1 ++ [100]
          error := none
          status := "Success! Created " ++ toString n ++ " segments. Download started."
          started := true
          engineOps := ops2 ++ (outputFiles ++ [sanitized]).map EngineOp.delete
          downloaded := true }

/-- A validation failure: the error is reported, nothing else happens —
no engine operation, no progress, no state mutation beyond the message. -/
def idleError (initVfs : List String) (msg : String) : RunResult :=
  { finalVfs := initVfs
    archive := []
    progressTrace := []
    error := some (RunError.validation msg)
    status := ""
    started := false
    engineOps := []
    downloaded := false }

/-- `handleProcess`: the three precondition checks, then the run body. -/
def handleProcess (fileSelected isLoaded ffmpegPresent : Bool) (segmentLength : Int)
    (eng : EngineModel) (initVfs : List String) (rawName : String) : RunResult :=
  if !fileSelected || !isLoaded then
    idleError initVfs "Please select a file and wait for FFmpeg to load."
  else if !ffmpegPresent then
    idleError initVfs "FFmpeg is not initialized. Please wait for it to load."
  else if segmentLength ≤ 0 then
    idleError initVfs "Segment length must be greater than 0."
  else
    runProcess eng initVfs rawName segmentLength

/-! ### The segment-length input -/

/-- The decimal digit run at the head of the character list. -/
def leadingDigits (cs : List Char) : List Char :=
  cs.takeWhile Char.isDigit

/-- The value of a list of decimal digits. -/
def digitsToNat (ds : List Char) : Nat :=
  ds.foldl (fun a c => a * 10 + (c.toNat - 48)) 0

/-- `parseInt(s)` (decimal): skip leading whitespace, accept an optional
sign, then read leading digits; `none` models `NaN` (no digits found). -/
def jsParseInt (s : String) : Option Int :=
  let cs := s.toList.dropWhile Char.isWhitespace
  match cs with
  | '-' :: rest =>
    let ds := leadingDigits rest
    if ds.isEmpty then none else some (-(digitsToNat ds : Int))
  | '+' :: rest =>
    let ds := leadingDigits rest
    if ds.isEmpty then none else some ((digitsToNat ds : Int))
  | _ =>
    let ds := leadingDigits cs
    if ds.isEmpty then none else some ((digitsToNat ds : Int))

/-- `setSegmentLength(parseInt(e.target.value) || 30)`: `NaN` and `0` are
falsy, so both store the default `30`; any other parsed value is stored. -/
def storedSegmentLength (s : String) : Int :=
  match jsParseInt s with
  | none => 30
  | some n => if n = 0 then 30 else n


/-! ### Helper lemmas: the virtual filesystem -/

lemma vfsWrite_mem {v : List String} {n x : String} :
    x ∈ vfsWrite v n ↔ x ∈ v ∨ x = n := by
  unfold vfsWrite
  split <;> rename_i h
  · constructor
    · exact fun hx => Or.inl hx
    · rintro (hx | rfl) <;> [exact hx; exact h]
  · simp [List.mem_append]

lemma vfsWrite_nodup {v : List String} {n : String} (h : v.Nodup) :
    (vfsWrite v n).Nodup := by
  unfold vfsWrite
  split <;> rename_i hmem
  · exact h
  · simpa [List.nodup_append] using ⟨h, hmem⟩

lemma foldl_vfsWrite_mem {x : String} :
    ∀ (l v : List String), x ∈ l.foldl vfsWrite v ↔ x ∈ v ∨ x ∈ l
  | [], v => by simp
  | n :: rest, v => by
    rw [List.foldl_cons, foldl_vfsWrite_mem rest, vfsWrite_mem]
    simp [or_assoc, or_comm, or_left_comm]

lemma foldl_vfsWrite_nodup :
    ∀ (l v : List String), v.Nodup → (l.foldl vfsWrite v).Nodup
  | [], _, h => h
  | n :: rest, v, h => by
    rw [List.foldl_cons]
    exact foldl_vfsWrite_nodup rest _ (vfsWrite_nodup h)

lemma runVfsAfterExec_nodup {eng : EngineModel} {initVfs : List String}
    {rawName : String} (h : initVfs.Nodup) :
    (runVfsAfterExec eng initVfs rawName).Nodup :=
  foldl_vfsWrite_nodup _ _ (vfsWrite_nodup h)

lemma sanitized_mem_runVfsAfterExec {eng : EngineModel} {initVfs : List String}
    {rawName : String} :
    sanitizeFilename rawName ∈ runVfsAfterExec eng initVfs rawName := by
  unfold runVfsAfterExec
  rw [foldl_vfsWrite_mem]
  exact Or.inl (vfsWrite_mem.mpr (Or.inr rfl))

lemma produced_subset_runVfsAfterExec {eng : EngineModel} {initVfs : List String}
    {rawName : String} {x : String} (hx : x ∈ eng.produced) :
    x ∈ runVfsAfterExec eng initVfs rawName := by
  unfold runVfsAfterExec
  rw [foldl_vfsWrite_mem]
  exact Or.inr hx

/-! ### Helper lemmas: sorting -/

lemma insertSorted_mem {x s : String} :
    ∀ {l : List String}, x ∈ insertSorted s l ↔ x = s ∨ x ∈ l
  | [] => by simp [insertSorted]
  | t :: ts => by
    unfold insertSorted
    split
    · simp
    · rw [List.mem_cons, insertSorted_mem (l := ts), List.mem_cons]
      tauto

lemma sortStrings_mem {x : String} :
    ∀ {l : List String}, x ∈ sortStrings l ↔ x ∈ l
  | [] => by simp [sortStrings]
  | t :: ts => by
    show x ∈ insertSorted t (sortStrings ts) ↔ _
    rw [insertSorted_mem, sortStrings_mem (l := ts), List.mem_cons]

/-! ### Helper lemmas: conditional erase loops -/

lemma foldl_condErase_subset (q : String → Bool) :
    ∀ (l acc : List String),
      l.foldl (fun a f => if q f then a.erase f else a) acc ⊆ acc
  | [], _ => fun _ h => h
  | f :: rest, acc => by
    rw [List.foldl_cons]
    intro x hx
    have hsub := foldl_condErase_subset q rest (if q f then acc.erase f else acc) hx
    by_cases hq : q f
    · simp only [hq, if_true] at hsub
      exact List.erase_subset _ _ hsub
    · simpa [hq] using hsub

lemma foldl_condErase_nodup (q : String → Bool) :
    ∀ (l acc : List String), acc.Nodup →
      (l.foldl (fun a f => if q f then a.erase f else a) acc).Nodup
  | [], _, h => h
  | f :: rest, acc, h => by
    rw [List.foldl_cons]
    refine foldl_condErase_nodup q rest _ ?_
    by_cases hq : q f
    · simpa [hq] using h.erase f
    · simpa [hq] using h

lemma foldl_condErase_not_mem (q : String → Bool) {x : String} :
    ∀ (l acc : List String), acc.Nodup → x ∈ l → q x = true →
      x ∉ l.foldl (fun a f => if q f then a.erase f else a) acc
  | [], _, _, hx, _ => absurd hx (List.not_mem_nil x)
  | f :: rest, acc, hnd, hx, hq => by
    rw [List.foldl_cons]
    rcases List.mem_cons.mp hx with rfl | hx'
    · rw [if_pos hq]
      by_cases hmem : x ∈ rest
      · exact foldl_condErase_not_mem q rest _ (hnd.erase x) hmem hq
      · intro hcon
        have := foldl_condErase_subset q rest (acc.erase x) hcon
        exact absurd ((hnd.mem_erase_iff).mp this).1 (by simp)
    · by_cases hqf : q f
      · rw [if_pos hqf]
        exact foldl_condErase_not_mem q rest _ (hnd.erase f) hx' hq
      · rw [if_neg hqf]
        exact foldl_condErase_not_mem q rest _ hnd hx' hq

lemma foldl_erase_subset :
    ∀ (l acc : List String), l.foldl (fun a f => a.erase f) acc ⊆ acc
  | [], _ => fun _ h => h
  | f :: rest, acc => by
    rw [List.foldl_cons]
    intro x hx
    exact List.erase_subset _ _ (foldl_erase_subset rest (acc.erase f) hx)

lemma foldl_erase_not_mem {x : String} :
    ∀ (l acc : List String), acc.Nodup → x ∈ l →
      x ∉ l.foldl (fun a f => a.erase f) acc
  | [], _, _, hx => absurd hx (List.not_mem_nil x)
  | f :: rest, acc, hnd, hx => by
    rw [List.foldl_cons]
    rcases List.mem_cons.mp hx with rfl | hx'
    · by_cases hmem : x ∈ rest
      · exact foldl_erase_not_mem rest _ (hnd.erase x) hmem
      · intro hcon
        have := foldl_erase_subset rest (acc.erase x) hcon
        exact absurd ((hnd.mem_erase_iff).mp this).1 (by simp)
    · exact foldl_erase_not_mem rest _ (hnd.erase f) hx'

/-! ### Helper lemmas: the cleanup passes -/

lemma failureCleanup_subset {eng : EngineModel} {s : String} {vfs : List String} :
    failureCleanup eng s vfs ⊆ vfs :=
  foldl_condErase_subset _ vfs vfs

lemma failureCleanup_no_match {eng : EngineModel} {s : String} {vfs : List String}
    (hnd : vfs.Nodup) (hdel : ∀ t, eng.deleteFails t = false) {x : String}
    (hx : x ∈ failureCleanup eng s vfs) :
    ¬(x = s ∨ strStartsWith x "out_" = true) := by
  intro hmatch
  have hq : ((decide (x = s) || strStartsWith x "out_") && !eng.deleteFails x) = true := by
    rcases hmatch with rfl | hst
    · simp [hdel]
    · simp [hdel, hst]
  exact foldl_condErase_not_mem _ vfs vfs hnd (failureCleanup_subset hx) hq hx

lemma deleteSeq_all_ok {eng : EngineModel} (hdel : ∀ t, eng.deleteFails t = false) :
    ∀ (l vfs : List String),
      deleteSeq eng vfs l = (l.foldl (fun a f => a.erase f) vfs, none)
  | [], vfs => rfl
  | f :: rest, vfs => by
    rw [deleteSeq, if_neg (by simp [hdel])]
    rw [deleteSeq_all_ok hdel rest (vfs.erase f), List.foldl_cons]



/-! ### Branch-reduction lemmas for `runProcess` -/

lemma runProcess_execThrows {eng : EngineModel} {initVfs : List String}
    {rawName : String} {segLen : Int} {v : JSValue} (hv : eng.execResult = some v) :
    runProcess eng initVfs rawName segLen =
      catchHandler eng (sanitizeFilename rawName) (runVfsAfterExec eng initVfs rawName)
        [0, 10]
        [EngineOp.write (sanitizeFilename rawName), EngineOp.exec (runArgv rawName segLen)]
        [] false
        (RunError.segFailed ("FFmpeg processing failed: " ++ jsErrorMessage v)) := by
  simp only [runProcess, hv]

lemma runProcess_noOutputs {eng : EngineModel} {initVfs : List String}
    {rawName : String} {segLen : Int} (hv : eng.execResult = none)
    (h0 : runOutputFiles eng initVfs rawName = []) :
    runProcess eng initVfs rawName segLen =
      catchHandler eng (sanitizeFilename rawName) (runVfsAfterExec eng initVfs rawName)
        [0, 10, 60]
        [EngineOp.write (sanitizeFilename rawName), EngineOp.exec (runArgv rawName segLen),
          EngineOp.listDir]
        [] false RunError.noSegments := by
  simp only [runProcess, hv, h0]
  rfl

lemma runProcess_success {eng : EngineModel} {initVfs : List String}
    {rawName : String} {segLen : Int} (hv : eng.execResult = none)
    (h0 : runOutputFiles eng initVfs rawName ≠ [])
    (hdel : ∀ t, eng.deleteFails t = false) :
    runProcess eng initVfs rawName segLen =
      { finalVfs := (runOutputFiles eng initVfs rawName ++ [sanitizeFilename rawName]).foldl
          (fun a f => a.erase f) (runVfsAfterExec eng initVfs rawName)
        archive := buildArchive eng (jsBaseName (sanitizeFilename rawName))
          (resolvedOutputExt rawName) 0 (runOutputFiles eng initVfs rawName)
        progressTrace := [0, 10, 60, 70] ++
          archiveTrace (runOutputFiles eng initVfs rawName).length 0
            (runOutputFiles eng initVfs rawName) ++ [95, 100]
        error := none
        status := "Success! Created " ++ toString (runOutputFiles eng initVfs rawName).length ++
          " segments. Download started."
        started := true
        engineOps :=
          [EngineOp.write (sanitizeFilename rawName), EngineOp.exec (runArgv rawName segLen),
            EngineOp.listDir] ++ (runOutputFiles eng initVfs rawName).map EngineOp.read ++
          (runOutputFiles eng initVfs rawName ++ [sanitizeFilename rawName]).map EngineOp.delete
        downloaded := true } := by
  have hlen : ¬((runOutputFiles eng initVfs rawName).length = 0) := by
    simpa [List.length_eq_zero] using h0
  have hds := deleteSeq_all_ok hdel
    (runOutputFiles eng initVfs rawName ++ [sanitizeFilename rawName])
    (runVfsAfterExec eng initVfs rawName)
  simp only [runProcess, hv, if_neg hlen, hds]
  simp [List.append_assoc]

lemma runProcess_deleteFail {eng : EngineModel} {initVfs : List String}
    {rawName : String} {segLen : Int} {fname : String} (hv : eng.execResult = none)
    (h0 : runOutputFiles eng initVfs rawName ≠ [])
    (hfail : (deleteSeq eng (runVfsAfterExec eng initVfs rawName)
      (runOutputFiles eng initVfs rawName ++ [sanitizeFilename rawName])).2 = some fname) :
    runProcess eng initVfs rawName segLen =
      catchHandler eng (sanitizeFilename rawName)
        (deleteSeq eng (runVfsAfterExec eng initVfs rawName)
          (runOutputFiles eng initVfs rawName ++ [sanitizeFilename rawName])).1
        ([0, 10, 60, 70] ++
          archiveTrace (runOutputFiles eng initVfs rawName).length 0
            (runOutputFiles eng initVfs rawName) ++ [95])
        ([EngineOp.write (sanitizeFilename rawName), EngineOp.exec (runArgv rawName segLen),
          EngineOp.listDir] ++ (runOutputFiles eng initVfs rawName).map EngineOp.read)
        (buildArchive eng (jsBaseName (sanitizeFilename rawName))
          (resolvedOutputExt rawName) 0 (runOutputFiles eng initVfs rawName))
        true (RunError.deleteFailed fname) := by
  have hlen : ¬((runOutputFiles eng initVfs rawName).length = 0) := by
    simpa [List.length_eq_zero] using h0
  simp only [runProcess, hv, if_neg hlen]
  rw [show (deleteSeq eng (runVfsAfterExec eng initVfs rawName)
      (runOutputFiles eng initVfs rawName ++ [sanitizeFilename rawName]))
    = ((deleteSeq eng (runVfsAfterExec eng initVfs rawName)
      (runOutputFiles eng initVfs rawName ++ [sanitizeFilename rawName])).1, some fname) from by
    rw [← hfail]]
  rfl

lemma catchHandler_error {eng : EngineModel} {s : String} {vfs : List String}
    {trace : List ℚ} {ops : List EngineOp} {archive : List (String × List Nat)}
    {dl : Bool} {e : RunError} :
    (catchHandler eng s vfs trace ops archive dl e).error = some e := rfl

lemma catchHandler_finalVfs {eng : EngineModel} {s : String} {vfs : List String}
    {trace : List ℚ} {ops : List EngineOp} {archive : List (String × List Nat)}
    {dl : Bool} {e : RunError} :
    (catchHandler eng s vfs trace ops archive dl e).finalVfs = failureCleanup eng s vfs := rfl

lemma catchHandler_phase {eng : EngineModel} {s : String} {vfs : List String}
    {trace : List ℚ} {ops : List EngineOp} {archive : List (String × List Nat)}
    {dl : Bool} {e : RunError} :
    (catchHandler eng s vfs trace ops archive dl e).phase = Phase.Failed := rfl



/-- A well-behaved engine used to instantiate hypotheses at concrete inputs:
`exec` succeeds and produces two pattern-conforming outputs, every delete
succeeds. -/
def engOk : EngineModel :=
  ⟨none, ["out_01.mp4", "out_02.mp4"], fun _ => [], fun _ => false⟩

/-- C1: for an engine whose deletes succeed and whose outputs follow the
`out_NN.{ext}` pattern, a run whose `exec` threw settles into `Failed` with
a virtual filesystem holding no `out_`-prefixed entry and no entry named
the sanitized input; and after every run, whatever the outcome, the
filesystem holds no entry written by that run (neither the written input
nor any produced output). -/
theorem slicer_C1 (eng : EngineModel) (initVfs : List String) (rawName : String)
    (segLen : Int) (hnd : initVfs.Nodup)
    (hdel : ∀ t, eng.deleteFails t = false)
    (hprod : ∀ s ∈ eng.produced, strStartsWith s "out_" = true ∧
      strEndsWith s ("." ++ resolvedOutputExt rawName) = true) :
    (∀ v, eng.execResult = some v →
        (runProcess eng initVfs rawName segLen).phase = Phase.Failed ∧
        ∀ x ∈ (runProcess eng initVfs rawName segLen).finalVfs,
          strStartsWith x "out_" = false ∧ x ≠ sanitizeFilename rawName)
    ∧ (∀ x ∈ (runProcess eng initVfs rawName segLen).finalVfs,
        x ≠ sanitizeFilename rawName ∧ x ∉ eng.produced) := by
  have hVnd : (runVfsAfterExec eng initVfs rawName).Nodup := runVfsAfterExec_nodup hnd
  constructor
  · intro v hv
    rw [runProcess_execThrows hv]
    refine ⟨catchHandler_phase, ?_⟩
    intro x hx
    rw [catchHandler_finalVfs] at hx
    have hno := failureCleanup_no_match hVnd hdel hx
    push_neg at hno
    exact ⟨by simpa using hno.2, hno.1⟩
  · intro x hx
    match hv : eng.execResult with
    | some v =>
      rw [runProcess_execThrows hv, catchHandler_finalVfs] at hx
      have hno := failureCleanup_no_match hVnd hdel hx
      push_neg at hno
      refine ⟨hno.1, fun hp => ?_⟩
      exact absurd (hprod x hp).1 (by simpa using hno.2)
    | none =>
      by_cases h0 : runOutputFiles eng initVfs rawName = []
      · rw [runProcess_noOutputs hv h0, catchHandler_finalVfs] at hx
        have hno := failureCleanup_no_match hVnd hdel hx
        push_neg at hno
        refine ⟨hno.1, fun hp => ?_⟩
        exact absurd (hprod x hp).1 (by simpa using hno.2)
      · rw [runProcess_success hv h0 hdel] at hx
        simp only at hx
        constructor
        · rintro rfl
          have hmem : sanitizeFilename rawName ∈
              runOutputFiles eng initVfs rawName ++ [sanitizeFilename rawName] := by
            simp
          exact foldl_erase_not_mem _ _ hVnd hmem hx
        · intro hp
          have hxV : x ∈ runVfsAfterExec eng initVfs rawName :=
            produced_subset_runVfsAfterExec hp
          have hpred : (strStartsWith x "out_" &&
              strEndsWith x ("." ++ resolvedOutputExt rawName)) = true := by
            rcases hprod x hp with ⟨h1, h2⟩
            simp [h1, h2]
          have hout : x ∈ runOutputFiles eng initVfs rawName := by
            unfold runOutputFiles
            exact sortStrings_mem.mpr (List.mem_filter.mpr ⟨hxV, hpred⟩)
          have hmem : x ∈ runOutputFiles eng initVfs rawName ++ [sanitizeFilename rawName] :=
            List.mem_append.mpr (Or.inl hout)
          exact foldl_erase_not_mem _ _ hVnd hmem hx

/-- Witness for C1: the hypotheses hold at a concrete engine and input,
and the theorem's conclusion then applies there. -/
theorem slicer_C1_witness :
    (([] : List String).Nodup ∧ (∀ t, engOk.deleteFails t = false) ∧
      (∀ s ∈ engOk.produced, strStartsWith s "out_" = true ∧
        strEndsWith s ("." ++ resolvedOutputExt "a.mp4") = true)) ∧
    (∀ x ∈ (runProcess engOk [] "a.mp4" 30).finalVfs,
      x ≠ sanitizeFilename "a.mp4" ∧ x ∉ engOk.produced) :=
  ⟨⟨by decide, fun t => rfl, by decide⟩,
    (slicer_C1 engOk [] "a.mp4" 30 (by decide) (fun t => rfl) (by decide)).2⟩



/-- C5: when `exec` succeeds but the filtered listing is empty, the run
settles into `Failed` with the `noSegments` error — a condition distinct
from `segFailed` — and the written input is removed from the engine's
virtual filesystem (its delete succeeding). -/
theorem slicer_C5 (eng : EngineModel) (initVfs : List String) (rawName : String)
    (segLen : Int) (hnd : initVfs.Nodup)
    (hv : eng.execResult = none)
    (h0 : runOutputFiles eng initVfs rawName = [])
    (hdel : eng.deleteFails (sanitizeFilename rawName) = false) :
    (runProcess eng initVfs rawName segLen).error = some RunError.noSegments ∧
    (runProcess eng initVfs rawName segLen).phase = Phase.Failed ∧
    (∀ m, RunError.noSegments ≠ RunError.segFailed m) ∧
    sanitizeFilename rawName ∉ (runProcess eng initVfs rawName segLen).finalVfs := by
  rw [runProcess_noOutputs hv h0]
  refine ⟨catchHandler_error, catchHandler_phase, fun m => by simp, ?_⟩
  rw [catchHandler_finalVfs]
  have hVnd : (runVfsAfterExec eng initVfs rawName).Nodup := runVfsAfterExec_nodup hnd
  have hq : ((decide (sanitizeFilename rawName = sanitizeFilename rawName) ||
      strStartsWith (sanitizeFilename rawName) "out_") &&
      !eng.deleteFails (sanitizeFilename rawName)) = true := by
    simp [hdel]
  exact foldl_condErase_not_mem _ _ _ hVnd sanitized_mem_runVfsAfterExec hq

/-- An engine whose successful command produces nothing. -/
def engEmpty : EngineModel :=
  ⟨none, [], fun _ => [], fun _ => false⟩

/-- Witness for C5: a concrete engine with an empty listing satisfies the
hypotheses, and the conclusion applies there. -/
theorem slicer_C5_witness :
    (engEmpty.execResult = none ∧ runOutputFiles engEmpty [] "a.mp4" = []) ∧
    ((runProcess engEmpty [] "a.mp4" 30).error = some RunError.noSegments ∧
      (runProcess engEmpty [] "a.mp4" 30).phase = Phase.Failed ∧
      (∀ m, RunError.noSegments ≠ RunError.segFailed m) ∧
      sanitizeFilename "a.mp4" ∉ (runProcess engEmpty [] "a.mp4" 30).finalVfs) :=
  ⟨⟨rfl, by decide⟩, slicer_C5 engEmpty [] "a.mp4" 30 (by decide) rfl (by decide) rfl⟩

/-- The defensively derived message is never empty, whatever the thrown
value's shape. -/
lemma jsErrorMessage_ne_empty (v : JSValue) : jsErrorMessage v ≠ "" := by
  unfold jsErrorMessage
  split <;> rename_i h1
  · exact h1
  · split <;> rename_i h2
    · exact h2
    · split <;> rename_i h3
      · exact h3
      · simp

/-- C9: whatever value `exec` throws — `null`, `undefined`, a string, an
`Error`-like object, or a plain object — the handler totally derives a
non-empty `segFailed` message and the run settles into `Failed` instead of
crashing. -/
theorem slicer_C9 (eng : EngineModel) (initVfs : List String) (rawName : String)
    (segLen : Int) (v : JSValue) (hv : eng.execResult = some v) :
    (runProcess eng initVfs rawName segLen).error =
      some (RunError.segFailed ("FFmpeg processing failed: " ++ jsErrorMessage v)) ∧
    "FFmpeg processing failed: " ++ jsErrorMessage v ≠ "" ∧
    jsErrorMessage v ≠ "" ∧
    (runProcess eng initVfs rawName segLen).phase = Phase.Failed := by
  rw [runProcess_execThrows hv]
  refine ⟨catchHandler_error, ?_, jsErrorMessage_ne_empty v, catchHandler_phase⟩
  intro hcon
  have h2 : "FFmpeg processing failed: ".data ++ (jsErrorMessage v).data = ([] : List Char) :=
    congrArg String.data hcon
  simp at h2

/-- An engine whose `exec` throws a message-less plain object with an empty
`toString()`, the nastiest shape the handler must survive. -/
def engThrows : EngineModel :=
  ⟨some (JSValue.plainObj ""), [], fun _ => [], fun _ => true⟩

/-- Witness for C9: the hypothesis holds at a concrete engine throwing a
degenerate value, and the conclusion applies there. -/
theorem slicer_C9_witness :
    engThrows.execResult = some (JSValue.plainObj "") ∧
    ((runProcess engThrows [] "a.mp4" 30).error =
        some (RunError.segFailed
          ("FFmpeg processing failed: " ++ jsErrorMessage (JSValue.plainObj ""))) ∧
      "FFmpeg processing failed: " ++ jsErrorMessage (JSValue.plainObj "") ≠ "" ∧
      jsErrorMessage (JSValue.plainObj "") ≠ "" ∧
      (runProcess engThrows [] "a.mp4" 30).phase = Phase.Failed) :=
  ⟨rfl, slicer_C9 engThrows [] "a.mp4" 30 (JSValue.plainObj "") rfl⟩



/-- An engine whose command succeeds, producing one output, but whose every
`deleteFile` call fails. -/
def engDel : EngineModel :=
  ⟨none, ["out_01.mp4"], fun _ => [], fun _ => true⟩

/-- Counterexample to C4: on the success path a cleanup deletion failure is
not suppressed — with a run in which `exec` succeeded, the archive was
built and the download fired, the failing delete of `out_01.mp4` is caught
by the general error handler and the run ends in `Failed`. -/
theorem slicer_C4_cex :
    engDel.execResult = none ∧
    (runProcess engDel [] "a.mp4" 30).downloaded = true ∧
    (runProcess engDel [] "a.mp4" 30).archive ≠ [] ∧
    (runProcess engDel [] "a.mp4" 30).error =
      some (RunError.deleteFailed "out_01.mp4") ∧
    (runProcess engDel [] "a.mp4" 30).phase = Phase.Failed :=
  ⟨rfl, by decide, by decide, by decide, by decide⟩

/-- C4 (amended): on the failure path every cleanup deletion failure is
suppressed — the recorded error is the original one whatever
`eng.deleteFails` does; on the success path, however, the first failing
cleanup delete is caught by the general handler and by itself ends the run
in `Failed` (after the download has already fired). -/
theorem slicer_C4_amended (eng : EngineModel) (initVfs : List String)
    (rawName : String) (segLen : Int) :
    (∀ v, eng.execResult = some v →
      (runProcess eng initVfs rawName segLen).error =
        some (RunError.segFailed ("FFmpeg processing failed: " ++ jsErrorMessage v)) ∧
      (runProcess eng initVfs rawName segLen).phase = Phase.Failed)
    ∧ (∀ fname, eng.execResult = none →
        runOutputFiles eng initVfs rawName ≠ [] →
        (deleteSeq eng (runVfsAfterExec eng initVfs rawName)
          (runOutputFiles eng initVfs rawName ++ [sanitizeFilename rawName])).2 =
            some fname →
        (runProcess eng initVfs rawName segLen).error =
          some (RunError.deleteFailed fname) ∧
        (runProcess eng initVfs rawName segLen).phase = Phase.Failed ∧
        (runProcess eng initVfs rawName segLen).downloaded = true) := by
  constructor
  · intro v hv
    rw [runProcess_execThrows hv]
    exact ⟨catchHandler_error, catchHandler_phase⟩
  · intro fname hv h0 hfail
    rw [runProcess_deleteFail hv h0 hfail]
    exact ⟨catchHandler_error, catchHandler_phase, rfl⟩

/-- Witness for C4 (amended): the success-path part applies at a concrete
engine whose deletes all fail. -/
theorem slicer_C4_witness :
    (engDel.execResult = none ∧ runOutputFiles engDel [] "a.mp4" ≠ [] ∧
      (deleteSeq engDel (runVfsAfterExec engDel [] "a.mp4")
        (runOutputFiles engDel [] "a.mp4" ++ [sanitizeFilename "a.mp4"])).2 =
          some "out_01.mp4") ∧
    ((runProcess engDel [] "a.mp4" 30).error =
        some (RunError.deleteFailed "out_01.mp4") ∧
      (runProcess engDel [] "a.mp4" 30).phase = Phase.Failed ∧
      (runProcess engDel [] "a.mp4" 30).downloaded = true) :=
  ⟨⟨rfl, by decide, by decide⟩,
    (slicer_C4_amended engDel [] "a.mp4" 30).2 "out_01.mp4" rfl (by decide) (by decide)⟩

/-- C6: when no file is selected, or the engine is not loaded (flag or
handle), or the segment length is not positive, `handleProcess` reports a
validation error and does nothing else: the phase stays `Idle`, no engine
operation is issued, no progress is emitted, the filesystem is untouched
and no archive is built. -/
theorem slicer_C6 (fileSelected isLoaded ffmpegPresent : Bool) (segLen : Int)
    (eng : EngineModel) (initVfs : List String) (rawName : String)
    (h : fileSelected = false ∨ isLoaded = false ∨ ffmpegPresent = false ∨ segLen ≤ 0) :
    (∃ m, (handleProcess fileSelected isLoaded ffmpegPresent segLen eng initVfs
        rawName).error = some (RunError.validation m)) ∧
    (handleProcess fileSelected isLoaded ffmpegPresent segLen eng initVfs rawName).phase
      = Phase.Idle ∧
    (handleProcess fileSelected isLoaded ffmpegPresent segLen eng initVfs
      rawName).engineOps = [] ∧
    (handleProcess fileSelected isLoaded ffmpegPresent segLen eng initVfs
      rawName).started = false ∧
    (handleProcess fileSelected isLoaded ffmpegPresent segLen eng initVfs
      rawName).progressTrace = [] ∧
    (handleProcess fileSelected isLoaded ffmpegPresent segLen eng initVfs
      rawName).finalVfs = initVfs ∧
    (handleProcess fileSelected isLoaded ffmpegPresent segLen eng initVfs
      rawName).archive = [] := by
  rcases h with rfl | rfl | rfl | hle
  · simp [handleProcess, idleError, RunResult.phase]
  · cases fileSelected <;> simp [handleProcess, idleError, RunResult.phase]
  · cases fileSelected <;> cases isLoaded <;>
      simp [handleProcess, idleError, RunResult.phase]
  · cases fileSelected <;> cases isLoaded <;> cases ffmpegPresent <;>
      simp [handleProcess, idleError, RunResult.phase, hle]

/-- Witness for C6: segment length `0` with everything else in order (the
spec's scenario B) yields the validation outcome. -/
theorem slicer_C6_witness :
    ((true : Bool) = false ∨ (true : Bool) = false ∨ (true : Bool) = false ∨
      (0 : Int) ≤ 0) ∧
    ((∃ m, (handleProcess true true true 0 engOk [] "a.mp4").error =
        some (RunError.validation m)) ∧
      (handleProcess true true true 0 engOk [] "a.mp4").phase = Phase.Idle ∧
      (handleProcess true true true 0 engOk [] "a.mp4").engineOps = [] ∧
      (handleProcess true true true 0 engOk [] "a.mp4").started = false ∧
      (handleProcess true true true 0 engOk [] "a.mp4").progressTrace = [] ∧
      (handleProcess true true true 0 engOk [] "a.mp4").finalVfs = [] ∧
      (handleProcess true true true 0 engOk [] "a.mp4").archive = []) :=
  ⟨Or.inr (Or.inr (Or.inr le_rfl)),
    slicer_C6 true true true 0 engOk [] "a.mp4" (Or.inr (Or.inr (Or.inr le_rfl)))⟩

/-- C10: the stored segment length is `parseInt` of the entered string when
that parse yields a nonzero number and `30` otherwise, so it is never `0`;
`"0"` and non-numeric input store `30`, while a negative value is stored
and only rejected by the precondition check when a run starts. -/
theorem slicer_C10 :
    (∀ s, storedSegmentLength s ≠ 0 ∧
      storedSegmentLength s = (match jsParseInt s with
        | none => 30
        | some n => if n = 0 then 30 else n)) ∧
    storedSegmentLength "0" = 30 ∧
    storedSegmentLength "abc" = 30 ∧
    storedSegmentLength "-5" = -5 ∧
    (handleProcess true true true (storedSegmentLength "-5") engOk [] "a.mp4").phase
      = Phase.Idle ∧
    (handleProcess true true true (storedSegmentLength "-5") engOk [] "a.mp4").error
      = some (RunError.validation "Segment length must be greater than 0.") ∧
    (handleProcess true true true (storedSegmentLength "-5") engOk [] "a.mp4").engineOps
      = [] := by
  refine ⟨fun s => ⟨?_, rfl⟩, by decide, by decide, by decide, by decide, by decide,
    by decide⟩
  unfold storedSegmentLength
  cases h : jsParseInt s with
  | none => simp
  | some n =>
    by_cases hn : n = 0
    · simp [hn]
    · simp [hn]



/-- The names produced by the ZIP loop: position `j` of the list gets
ordinal `i + j + 1`. -/
lemma buildArchive_map_fst (eng : EngineModel) (b e : String) :
    ∀ (l : List String) (i : Nat),
      (buildArchive eng b e i l).map Prod.fst =
        (List.range l.length).map
          (fun j => b ++ "_segment_" ++ pad2 (i + j + 1) ++ "." ++ e)
  | [], _ => by simp [buildArchive]
  | name :: rest, i => by
    rw [buildArchive, List.map_cons, buildArchive_map_fst eng b e rest (i + 1),
      List.length_cons, List.range_succ_eq_map, List.map_cons, List.map_map]
    refine congrArg₂ _ rfl ?_
    refine List.map_congr_left fun j hj => ?_
    have harg : i + 1 + j + 1 = i + (j + 1) + 1 := by omega
    simp [Function.comp, harg]

/-- The archive length equals the number of collected outputs. -/
lemma buildArchive_length (eng : EngineModel) (b e : String) :
    ∀ (l : List String) (i : Nat), (buildArchive eng b e i l).length = l.length
  | [], _ => rfl
  | name :: rest, i => by
    rw [buildArchive, List.length_cons, List.length_cons,
      buildArchive_length eng b e rest (i + 1)]

/-- Whenever `exec` succeeded and at least one output was collected, the
archive of the settled result is the ZIP loop's output — on the clean
success path and on the path where a later cleanup delete fails alike. -/
lemma runProcess_archive_of_outputs {eng : EngineModel} {initVfs : List String}
    {rawName : String} {segLen : Int} (hv : eng.execResult = none)
    (h0 : runOutputFiles eng initVfs rawName ≠ []) :
    (runProcess eng initVfs rawName segLen).archive =
      buildArchive eng (jsBaseName (sanitizeFilename rawName))
        (resolvedOutputExt rawName) 0 (runOutputFiles eng initVfs rawName) := by
  have hlen : ¬((runOutputFiles eng initVfs rawName).length = 0) := by
    simpa [List.length_eq_zero] using h0
  simp only [runProcess, hv, if_neg hlen]
  rcases hd : (deleteSeq eng (runVfsAfterExec eng initVfs rawName)
      (runOutputFiles eng initVfs rawName ++ [sanitizeFilename rawName])).2 with _ | f
  · rfl
  · rfl

/-- C2: a run that collects `N ≥ 1` qualifying outputs archives exactly `N`
entries named `{base}_segment_{01..NN}.{ext}` — ordinals assigned by sort
position, starting at 1, contiguous — independently of the names the
engine itself produced. -/
theorem slicer_C2 (eng : EngineModel) (initVfs : List String) (rawName : String)
    (segLen : Int) (hv : eng.execResult = none)
    (hne : runOutputFiles eng initVfs rawName ≠ []) :
    (runProcess eng initVfs rawName segLen).archive.length =
      (runOutputFiles eng initVfs rawName).length ∧
    (runProcess eng initVfs rawName segLen).archive.map Prod.fst =
      (List.range (runOutputFiles eng initVfs rawName).length).map
        (fun j => jsBaseName (sanitizeFilename rawName) ++ "_segment_" ++
          pad2 (j + 1) ++ "." ++ resolvedOutputExt rawName) := by
  rw [runProcess_archive_of_outputs hv hne]
  constructor
  · exact buildArchive_length eng _ _ _ 0
  · rw [buildArchive_map_fst]
    exact List.map_congr_left fun j hj => by norm_num

/-- Witness for C2: a concrete two-output run archives two entries with
ordinals 01 and 02. -/
theorem slicer_C2_witness :
    (engOk.execResult = none ∧ runOutputFiles engOk [] "a.mp4" ≠ []) ∧
    ((runProcess engOk [] "a.mp4" 30).archive.length =
        (runOutputFiles engOk [] "a.mp4").length ∧
      (runProcess engOk [] "a.mp4" 30).archive.map Prod.fst =
        (List.range (runOutputFiles engOk [] "a.mp4").length).map
          (fun j => jsBaseName (sanitizeFilename "a.mp4") ++ "_segment_" ++
            pad2 (j + 1) ++ "." ++ resolvedOutputExt "a.mp4")) :=
  ⟨⟨rfl, by decide⟩, slicer_C2 engOk [] "a.mp4" 30 rfl (by decide)⟩



/-- `70 + (completed / total) * 20` where position `k` counts from 0: the
progress value emitted after archiving entry `k + 1` of `total`. -/
def archProgress (total k : Nat) : ℚ :=
  70 + (((k : ℚ) + 1) / (total : ℚ)) * 20

/-- The progress values emitted by the ZIP loop, as a function of position. -/
lemma archiveTrace_eq_range (total : Nat) :
    ∀ (l : List String) (i : Nat),
      archiveTrace total i l =
        (List.range l.length).map (fun j => archProgress total (i + j))
  | [], _ => by simp [archiveTrace]
  | name :: rest, i => by
    rw [archiveTrace, archiveTrace_eq_range total rest (i + 1), List.length_cons,
      List.range_succ_eq_map, List.map_cons, List.map_map]
    refine congrArg₂ _ ?_ ?_
    · show (70 : ℚ) + (((i : ℚ) + 1) / (total : ℚ)) * 20 = archProgress total (i + 0)
      simp [archProgress]
    · refine List.map_congr_left fun j hj => ?_
      simp only [Function.comp]
      congr 1
      omega

/-- The archiving progress values are bounded between 70 and 90. -/
lemma archProgress_bounds {total k : Nat} (h0 : total ≠ 0) (hk : k < total) :
    (70 : ℚ) ≤ archProgress total k ∧ archProgress total k ≤ 90 := by
  have hnQ : (0 : ℚ) < (total : ℚ) := by exact_mod_cast Nat.pos_of_ne_zero h0
  constructor
  · have hpos : (0 : ℚ) ≤ (((k : ℚ) + 1) / (total : ℚ)) * 20 := by positivity
    unfold archProgress
    linarith
  · have hk1 : ((k : ℚ) + 1) ≤ (total : ℚ) := by exact_mod_cast Nat.succ_le_of_lt hk
    have hdiv : ((k : ℚ) + 1) / (total : ℚ) ≤ 1 := (div_le_one hnQ).mpr hk1
    have hmul := mul_le_mul_of_nonneg_right hdiv (by norm_num : (0 : ℚ) ≤ 20)
    unfold archProgress
    linarith

/-- The archiving progress values are monotone in the position. -/
lemma archProgress_mono {total : Nat} (a b : Nat) (hab : a < b) :
    archProgress total a ≤ archProgress total b := by
  rcases Nat.eq_zero_or_pos total with h0 | hpos
  · simp [archProgress, h0]
  · have hnQ : (0 : ℚ) < (total : ℚ) := by exact_mod_cast hpos
    have hc : ((a : ℚ) + 1) / (total : ℚ) ≤ ((b : ℚ) + 1) / (total : ℚ) := by
      refine (div_le_div_iff_of_pos_right hnQ).mpr ?_
      have hab' : (a : ℚ) ≤ (b : ℚ) := by exact_mod_cast hab.le
      linarith
    have hmul := mul_le_mul_of_nonneg_right hc (by norm_num : (0 : ℚ) ≤ 20)
    unfold archProgress
    linarith

/-- C7: on a run that collects `n ≥ 1` outputs and completes, the emitted
progress values are `0, 10, 60, 70`, then `70 + (k / n) * 20` after the
`k`-th archived entry (`archProgress n (k - 1)`, positions counted from 0),
then `95, 100`; the whole sequence is monotonically non-decreasing, and the
last Archiving-phase value before Finalizing is exactly `90`. -/
theorem slicer_C7 (eng : EngineModel) (initVfs : List String) (rawName : String)
    (segLen : Int) (hv : eng.execResult = none)
    (hne : runOutputFiles eng initVfs rawName ≠ [])
    (hdel : ∀ t, eng.deleteFails t = false) :
    (runProcess eng initVfs rawName segLen).progressTrace =
      [0, 10, 60, 70] ++
        (List.range (runOutputFiles eng initVfs rawName).length).map
          (archProgress (runOutputFiles eng initVfs rawName).length) ++
        [95, 100] ∧
    List.Chain' (· ≤ ·) (runProcess eng initVfs rawName segLen).progressTrace ∧
    ((List.range (runOutputFiles eng initVfs rawName).length).map
        (archProgress (runOutputFiles eng initVfs rawName).length)).getLast?
      = some 90 := by
  have hn0 : (runOutputFiles eng initVfs rawName).length ≠ 0 := by
    simpa [List.length_eq_zero] using hne
  have htr : archiveTrace (runOutputFiles eng initVfs rawName).length 0
      (runOutputFiles eng initVfs rawName) =
      (List.range (runOutputFiles eng initVfs rawName).length).map
        (archProgress (runOutputFiles eng initVfs rawName).length) := by
    rw [archiveTrace_eq_range]
    exact List.map_congr_left fun j hj => by rw [Nat.zero_add]
  have hbound : ∀ x ∈ (List.range (runOutputFiles eng initVfs rawName).length).map
      (archProgress (runOutputFiles eng initVfs rawName).length),
      (70 : ℚ) ≤ x ∧ x ≤ 90 := by
    intro x hx
    obtain ⟨k, hk, rfl⟩ := List.mem_map.mp hx
    exact archProgress_bounds hn0 (List.mem_range.mp hk)
  have hpairArch : List.Pairwise (· ≤ ·)
      ((List.range (runOutputFiles eng initVfs rawName).length).map
        (archProgress (runOutputFiles eng initVfs rawName).length)) :=
    (List.pairwise_lt_range _).map _ (fun a b hab => archProgress_mono a b hab)
  have hpair : List.Pairwise (· ≤ ·)
      (([0, 10, 60, 70] : List ℚ) ++
        (List.range (runOutputFiles eng initVfs rawName).length).map
          (archProgress (runOutputFiles eng initVfs rawName).length) ++
        [95, 100]) := by
    rw [List.append_assoc, List.pairwise_append]
    refine ⟨?_, ?_, ?_⟩
    · norm_num [List.pairwise_cons]
    · rw [List.pairwise_append]
      refine ⟨hpairArch, by norm_num [List.pairwise_cons], ?_⟩
      intro a ha b hb
      rcases hbound a ha with ⟨_, ha90⟩
      have hb95 : (95 : ℚ) ≤ b := by fin_cases hb <;> norm_num
      linarith
    · intro a ha b hb
      have ha70 : a ≤ 70 := by fin_cases ha <;> norm_num
      rcases List.mem_append.mp hb with hb' | hb''
      · rcases hbound b hb' with ⟨hb70, _⟩
        linarith
      · have hb95 : (95 : ℚ) ≤ b := by fin_cases hb'' <;> norm_num
        linarith
  have hrun := @runProcess_success eng initVfs rawName segLen hv hne hdel
  refine ⟨?_, ?_, ?_⟩
  · rw [hrun]
    simp only
    rw [htr]
  · rw [hrun]
    simp only
    rw [htr]
    exact hpair.chain'
  · obtain ⟨m, hm⟩ := Nat.exists_eq_succ_of_ne_zero hn0
    rw [hm]
    rw [show List.range (m + 1) = List.range m ++ [m] from List.range_succ m]
    rw [List.map_append, List.map_cons, List.map_nil, List.getLast?_concat]
    unfold archProgress
    have hmQ : ((m : ℚ) + 1) ≠ 0 := by positivity
    rw [show (((m + 1 : Nat)) : ℚ) = (m : ℚ) + 1 from by push_cast; ring, div_self hmQ]
    norm_num

/-- Witness for C7: the hypotheses hold at a concrete two-output run, and
the trace, monotonicity and final-90 conclusions apply there. -/
theorem slicer_C7_witness :
    (engOk.execResult = none ∧ runOutputFiles engOk [] "a.mp4" ≠ [] ∧
      (∀ t, engOk.deleteFails t = false)) ∧
    ((runProcess engOk [] "a.mp4" 30).progressTrace =
        [0, 10, 60, 70] ++
          (List.range (runOutputFiles engOk [] "a.mp4").length).map
            (archProgress (runOutputFiles engOk [] "a.mp4").length) ++
          [95, 100] ∧
      List.Chain' (· ≤ ·) (runProcess engOk [] "a.mp4" 30).progressTrace ∧
      ((List.range (runOutputFiles engOk [] "a.mp4").length).map
          (archProgress (runOutputFiles engOk [] "a.mp4").length)).getLast?
        = some 90) :=
  ⟨⟨rfl, by decide, fun t => rfl⟩,
    slicer_C7 engOk [] "a.mp4" 30 rfl (by decide) (fun t => rfl)⟩



/-- The engine production the claim hypothesises for scenario A:
`out_01.mp4` through `out_03.mp4`. -/
def engMp4 : EngineModel :=
  ⟨none, ["out_01.mp4", "out_02.mp4", "out_03.mp4"], fun _ => [], fun _ => false⟩

/-- The engine production that actually matches the resolved output
extension of the `.mov` input: `out_01.mov` through `out_03.mov`. -/
def engMov : EngineModel :=
  ⟨none, ["out_01.mov", "out_02.mov", "out_03.mov"], fun _ => [], fun _ => false⟩

/-- Counterexample to C3: for input `My Clip (2024).mov` the resolved
output extension is `mov`, so when the engine produces `out_01.mp4` ..
`out_03.mp4` (as the claim states) the filtered listing is empty and the
run fails with `noSegments` — the archive is empty and no status reports
3 segments, contradicting the claimed archive contents. -/
theorem slicer_C3_cex :
    resolvedOutputExt "My Clip (2024).mov" = "mov" ∧
    (runProcess engMp4 [] "My Clip (2024).mov" 30).archive = [] ∧
    (runProcess engMp4 [] "My Clip (2024).mov" 30).error = some RunError.noSegments ∧
    (runProcess engMp4 [] "My Clip (2024).mov" 30).phase = Phase.Failed ∧
    (runProcess engMp4 [] "My Clip (2024).mov" 30).status = "" :=
  ⟨by decide, by decide, by decide, by decide, by decide⟩

/-- C3 (amended): for input `My Clip (2024).mov` with segment length 30 the
resolved output extension is `mov`; with the engine producing `out_01.mov`
.. `out_03.mov` the archive contains `My_Clip_2024_segment_01.mov`,
`_02`, `_03` (the base name strips the extension) and the final status
reports 3 segments. -/
theorem slicer_C3_amended :
    sanitizeFilename "My Clip (2024).mov" = "My_Clip_2024.mov" ∧
    jsBaseName (sanitizeFilename "My Clip (2024).mov") = "My_Clip_2024" ∧
    (runProcess engMov [] "My Clip (2024).mov" 30).archive.map Prod.fst =
      ["My_Clip_2024_segment_01.mov", "My_Clip_2024_segment_02.mov",
        "My_Clip_2024_segment_03.mov"] ∧
    (runProcess engMov [] "My Clip (2024).mov" 30).status =
      "Success! Created 3 segments. Download started." ∧
    (runProcess engMov [] "My Clip (2024).mov" 30).error = none ∧
    (runProcess engMov [] "My Clip (2024).mov" 30).phase = Phase.Succeeded :=
  ⟨by decide, by decide, by decide, by decide, by decide, by decide⟩



/-! ### Sanitizer lemmas -/

lemma safeChar_not_whitespace {c : Char} (h : safeChar c = true) :
    c.isWhitespace = false := by
  cases hw : c.isWhitespace
  · rfl
  · exfalso
    have hcases : c = ' ' ∨ c = '\t' ∨ c = '\r' ∨ c = '\n' := by
      simpa [Char.isWhitespace, or_assoc] using hw
    rcases hcases with rfl | rfl | rfl | rfl <;> revert h <;> decide

lemma sanitizeChars_safe {cs : List Char} {c : Char} (h : c ∈ sanitizeChars cs) :
    safeChar c = true :=
  (List.mem_filter.mp h).2

lemma sanitizeChars_append (a b : List Char) :
    sanitizeChars (a ++ b) = sanitizeChars a ++ sanitizeChars b := by
  simp [sanitizeChars, List.filter_append]

lemma sanitizeChars_fixed :
    ∀ (cs : List Char), (∀ c ∈ cs, safeChar c = true) → sanitizeChars cs = cs
  | [], _ => rfl
  | c :: rest, h => by
    have hc := h c (List.mem_cons_self c rest)
    have hw : c.isWhitespace = false := safeChar_not_whitespace hc
    show (((c :: rest).map fun d => if d.isWhitespace then '_' else d).filter safeChar) =
      c :: rest
    rw [List.map_cons, if_neg (by simp [hw]), List.filter_cons_of_pos hc]
    exact congrArg (c :: ·) (sanitizeChars_fixed rest fun d hd => h d (List.mem_cons_of_mem c hd))

lemma sanitizeFilename_toList_safe (s : String) {c : Char}
    (h : c ∈ (sanitizeFilename s).toList) : safeChar c = true := by
  unfold sanitizeFilename at h
  by_cases he : (sanitizeChars s.toList).isEmpty
  · rw [if_pos he] at h
    fin_cases h <;> decide
  · rw [if_neg he] at h
    exact sanitizeChars_safe h

lemma sanitizeFilename_ne_empty (s : String) : sanitizeFilename s ≠ "" := by
  unfold sanitizeFilename
  by_cases he : (sanitizeChars s.toList).isEmpty
  · rw [if_pos he]
    decide
  · rw [if_neg he]
    intro hcon
    have hdata : sanitizeChars s.toList = ([] : List Char) := congrArg String.data hcon
    rw [hdata] at he
    exact he rfl

lemma toList_ne_nil_of_ne_empty {s : String} (h : s ≠ "") : s.toList ≠ [] := by
  intro hcon
  apply h
  cases s with
  | mk data => exact congrArg String.mk hcon

lemma sanitizeFilename_idem (s : String) :
    sanitizeFilename (sanitizeFilename s) = sanitizeFilename s := by
  have hsafe : ∀ c ∈ (sanitizeFilename s).toList, safeChar c = true :=
    fun c hc => sanitizeFilename_toList_safe s hc
  have hfix : sanitizeChars (sanitizeFilename s).toList = (sanitizeFilename s).toList :=
    sanitizeChars_fixed _ hsafe
  have hne : (sanitizeFilename s).toList ≠ [] :=
    toList_ne_nil_of_ne_empty (sanitizeFilename_ne_empty s)
  show (if (sanitizeChars (sanitizeFilename s).toList).isEmpty = true then "file"
    else String.mk (sanitizeChars (sanitizeFilename s).toList)) = sanitizeFilename s
  rw [hfix, if_neg (by simpa [List.isEmpty_iff] using hne)]
  rfl

/-- `takeWhile` swallows a prefix wholly satisfying `p` and stops at the
first failing element. -/
lemma takeWhile_append_stop (p : Char → Bool) {h : Char} (hh : p h = false) :
    ∀ (l1 l2 : List Char), (∀ c ∈ l1, p c = true) →
      List.takeWhile p (l1 ++ h :: l2) = l1
  | [], l2, _ => by simp [List.takeWhile_cons, hh]
  | c :: l1', l2, h1 => by
    rw [List.cons_append, List.takeWhile_cons, if_pos (h1 c (List.mem_cons_self c l1')),
      takeWhile_append_stop p hh l1' l2 fun d hd => h1 d (List.mem_cons_of_mem c hd)]

/-- The head of `dropWhile p` fails `p`. -/
lemma dropWhile_head_false (p : Char → Bool) :
    ∀ (l : List Char) (c : Char) (tl : List Char), l.dropWhile p = c :: tl → p c = false
  | [], c, tl => by intro hcon; simp at hcon
  | a :: l', c, tl => by
    intro hd
    rw [List.dropWhile_cons] at hd
    by_cases hp : p a = true
    · rw [if_pos hp] at hd
      exact dropWhile_head_false p l' c tl hd
    · rw [if_neg hp] at hd
      cases hd
      simpa using hp



/-- When the final extension consists of safe characters, sanitization
preserves it exactly. -/
lemma finalExtension_sanitize {s e : String}
    (hfe : finalExtension s = some e)
    (hsafe : ∀ c ∈ e.toList, safeChar c = true) :
    finalExtension (sanitizeFilename s) = some e := by
  unfold finalExtension at hfe
  by_cases hdot : '.' ∈ s.toList
  swap
  · rw [if_neg hdot] at hfe
    exact absurd hfe (by simp)
  rw [if_pos hdot] at hfe
  have he := Option.some.inj hfe
  subst he
  set E := s.toList.reverse.takeWhile notDot with hE
  set D := s.toList.reverse.dropWhile notDot with hD
  have hsplit : E ++ D = s.toList.reverse :=
    List.takeWhile_append_dropWhile _ _
  have hEp : ∀ c ∈ E, notDot c = true :=
    fun c hc => List.mem_takeWhile_imp hc
  have hDne : D ≠ [] := by
    intro h0
    rw [h0, List.append_nil] at hsplit
    have hdotrev : '.' ∈ s.toList.reverse := List.mem_reverse.mpr hdot
    have : ('.' : Char) ∈ E := by rw [hsplit]; exact hdotrev
    have := hEp _ this
    simp [notDot] at this
  obtain ⟨d, D', hDcons⟩ := List.exists_cons_of_ne_nil hDne
  have hdfalse : notDot d = false :=
    dropWhile_head_false _ _ _ _ (hD ▸ hDcons)
  have hdeq : d = '.' := by simpa [notDot] using hdfalse
  subst hdeq
  have hcs : s.toList = D'.reverse ++ '.' :: E.reverse := by
    have hsplit' : E ++ '.' :: D' = s.toList.reverse := by rw [← hDcons]; exact hsplit
    calc s.toList = s.toList.reverse.reverse := (List.reverse_reverse _).symm
      _ = (E ++ '.' :: D').reverse := by rw [hsplit']
      _ = ('.' :: D').reverse ++ E.reverse := List.reverse_append _ _
      _ = (D'.reverse ++ ['.']) ++ E.reverse := by rw [List.reverse_cons]
      _ = D'.reverse ++ '.' :: E.reverse := by simp [List.append_assoc]
  have hsafeE : ∀ c ∈ E.reverse, safeChar c = true := fun c hc => hsafe c hc
  have hfix2 : sanitizeChars ('.' :: E.reverse) = '.' :: E.reverse := by
    refine sanitizeChars_fixed _ ?_
    intro c hc
    rcases List.mem_cons.mp hc with rfl | hcm
    · decide
    · exact hsafeE c hcm
  have hchars : sanitizeChars s.toList =
      sanitizeChars D'.reverse ++ '.' :: E.reverse := by
    rw [hcs, sanitizeChars_append, hfix2]
  have hrne : sanitizeChars s.toList ≠ [] := by
    rw [hchars]
    simp
  have hsf : sanitizeFilename s = String.mk (sanitizeChars s.toList) := by
    show (if (sanitizeChars s.toList).isEmpty = true then "file"
      else String.mk (sanitizeChars s.toList)) = _
    rw [if_neg (by simpa [List.isEmpty_iff] using hrne)]
  rw [hsf]
  unfold finalExtension
  have hdotr : '.' ∈ (String.mk (sanitizeChars s.toList)).toList := by
    show ('.' : Char) ∈ sanitizeChars s.toList
    rw [hchars]
    exact List.mem_append.mpr (Or.inr (List.mem_cons_self _ _))
  rw [if_pos hdotr]
  have hrev : (String.mk (sanitizeChars s.toList)).toList.reverse =
      E ++ '.' :: (sanitizeChars D'.reverse).reverse := by
    show (sanitizeChars s.toList).reverse = _
    calc (sanitizeChars s.toList).reverse
        = (sanitizeChars D'.reverse ++ '.' :: E.reverse).reverse := by rw [hchars]
      _ = ('.' :: E.reverse).reverse ++ (sanitizeChars D'.reverse).reverse :=
          List.reverse_append _ _
      _ = (E.reverse.reverse ++ ['.']) ++ (sanitizeChars D'.reverse).reverse := by
          rw [List.reverse_cons]
      _ = E ++ '.' :: (sanitizeChars D'.reverse).reverse := by
          rw [List.reverse_reverse]
          simp [List.append_assoc]
  rw [hrev, takeWhile_append_stop _ (by decide) _ _ hEp]

/-- Counterexample to C8: the extension `b!c` of `a.b!c` contains an unsafe
character, so sanitization cannot both keep only safe characters and keep
that extension verbatim; the code's sanitizer strips the `!` and the final
extension changes from `b!c` to `bc`. -/
theorem slicer_C8_cex :
    finalExtension "a.b!c" = some "b!c" ∧
    sanitizeFilename "a.b!c" = "a.bc" ∧
    finalExtension (sanitizeFilename "a.b!c") = some "bc" ∧
    ("bc" : String) ≠ "b!c" :=
  ⟨by decide, by decide, by decide, by decide⟩

/-- C8 (amended): for all strings the sanitizer yields only safe
characters, is never empty, and is idempotent; it preserves a present
final dot-delimited extension exactly whenever that extension itself
consists of safe characters (an extension containing unsafe characters is
necessarily altered). -/
theorem slicer_C8_amended :
    (∀ s, ∀ c ∈ (sanitizeFilename s).toList, safeChar c = true) ∧
    (∀ s, sanitizeFilename s ≠ "") ∧
    (∀ s, sanitizeFilename (sanitizeFilename s) = sanitizeFilename s) ∧
    (∀ s e, finalExtension s = some e → (∀ c ∈ e.toList, safeChar c = true) →
      finalExtension (sanitizeFilename s) = some e) :=
  ⟨fun s _ hc => sanitizeFilename_toList_safe s hc, sanitizeFilename_ne_empty,
    sanitizeFilename_idem, fun _ _ hfe hsafe => finalExtension_sanitize hfe hsafe⟩

/-- Witness for C8 (amended): the extension-preservation part applies at a
concrete name with a safe extension. -/
theorem slicer_C8_witness :
    (finalExtension "a b.mp4" = some "mp4" ∧
      (∀ c ∈ ("mp4" : String).toList, safeChar c = true)) ∧
    finalExtension (sanitizeFilename "a b.mp4") = some "mp4" :=
  ⟨⟨by decide, by decide⟩,
    slicer_C8_amended.2.2.2 "a b.mp4" "mp4" (by decide) (by decide)⟩



/-- Witness for C10: the general part applies at a concrete input string. -/
theorem slicer_C10_witness :
    storedSegmentLength "7" ≠ 0 ∧
    storedSegmentLength "7" = (match jsParseInt "7" with
      | none => 30
      | some n => if n = 0 then 30 else n) :=
  slicer_C10.1 "7"


end MediaSlicer
